import Mathlib

/-!
Verification of the DDR-Generator pipeline: a shallow embedding of the
deterministic area segmenter (`area_parser.py`), the structural validator
(`validator.py`) and the entity-lock generator/verifier (`ddr_generator.py`),
together with theorems settling the specification's testable properties.
-/

namespace DDR

/-! ## Character-level helpers mirroring Python regex classes -/

/-- Python `\s` on ASCII text: space, tab, newline, carriage return,
vertical tab, form feed. -/
def pySpace (c : Char) : Bool :=
  c = ' ' || c = '\t' || c = '\n' || c = '\r' || c = Char.ofNat 11 || c = Char.ofNat 12

/-- Numeric value of a decimal digit character. -/
def digitVal (c : Char) : Nat := c.toNat - 48

/-- Python `int(s)` on a string of decimal digits. -/
def tokVal (s : String) : Nat := s.data.foldl (fun n c => n * 10 + digitVal c) 0

/-- Case-insensitive match of a (lowercase) keyword against the head of the
input, returning the remainder on success.  Models the literal part of a
Python regex compiled with `re.IGNORECASE`. -/
def matchKeywordCI : List Char → List Char → Option (List Char)
  | [], rest => some rest
  | _ :: _, [] => none
  | k :: ks, c :: cs => if c.toLower = k then matchKeywordCI ks cs else none

/-! ## Area segmenter (`extract_impacted_areas_from_text`) -/

/-- The literal portion of the marker pattern `Impacted Area\s+(\d+)`. -/
def impactedKw : List Char := "impacted area".data

/-- Attempt to match the marker pattern `Impacted Area\s+(\d+)` at the start
of `l`, returning the captured digit group.  `\s+` and `\d+` are greedy; for
this pattern maximal munch agrees with the backtracking regex engine, since
the character class after `\s+` (digits) is disjoint from `\s`. -/
def matchImpactedAt (l : List Char) : Option String :=
  match matchKeywordCI impactedKw l with
  | none => none
  | some rest =>
    let sp := rest.takeWhile pySpace
    if sp.isEmpty then none
    else
      let ds := (rest.dropWhile pySpace).takeWhile Char.isDigit
      if ds.isEmpty then none else some (String.mk ds)

/-- All matches of the marker pattern with their start offsets, in text
order.  Models `re.finditer`: scanning position by position is equivalent to
resuming after each match for this pattern, because no match of
`Impacted Area\s+\d+` can begin strictly inside another (the letter `I`
occurs only at a match's start). -/
def findImpactedAux : List Char → Nat → List (Nat × String)
  | [], _ => []
  | c :: cs, pos =>
    match matchImpactedAt (c :: cs) with
    | some tok => (pos, tok) :: findImpactedAux cs (pos + 1)
    | none => findImpactedAux cs (pos + 1)

/-- The `unique_areas` dict of the source: first occurrence of each captured
number wins, insertion order preserved. -/
def uniqueAreasAux (acc : List (String × Nat)) : List (Nat × String) → List (String × Nat)
  | [] => acc
  | (pos, tok) :: rest =>
    if acc.any (fun p => p.1 == tok) then uniqueAreasAux acc rest
    else uniqueAreasAux (acc ++ [(tok, pos)]) rest

def uniqueAreas (ms : List (Nat × String)) : List (String × Nat) :=
  uniqueAreasAux [] ms

/-- One entry of the segmenter's result list. -/
structure AreaDict where
  area_number : String
  area_name : String
  text_chunk : String
deriving DecidableEq, Repr

/-- The `ValueError` raised when the unique-area count exceeds the maximum:
carries the offending count and the preview list built from the first 30
sorted area numbers (with a total note when more than 30). -/
structure TooManyAreasError where
  count : Nat
  preview : List String
  totalNoted : Bool
deriving DecidableEq, Repr

/-- `unique_areas[area_num]["match_position"]` lookup. -/
def startPosOf (uniq : List (String × Nat)) (tok : String) : Nat :=
  ((uniq.find? (fun p => p.1 == tok)).map (fun p => p.2)).getD 0

/-- Python slice `text[s:e]` (empty when `e ≤ s`, as in Python for ordered
nonnegative indices). -/
def sliceStr (text : List Char) (s e : Nat) : String :=
  String.mk ((text.drop s).take (e - s))

/-- The final loop of the segmenter: each section's chunk runs from its
marker's first-occurrence position to the next sorted area's position, the
last one to end of text. -/
def buildAreas (text : List Char) (uniq : List (String × Nat)) (sorted : List String) :
    List AreaDict :=
  let ends := (sorted.drop 1).map (startPosOf uniq) ++ [text.length]
  (sorted.zip ends).map fun p =>
    { area_number := p.1
      area_name := "Impacted Area " ++ p.1
      text_chunk := sliceStr text (startPosOf uniq p.1) p.2 }

/-- `extract_impacted_areas_from_text(text, max_areas)`:  find all marker
matches, deduplicate by captured number (first occurrence wins), sort the
numbers numerically (`key=int`, stable), fail when more than `max_areas`
remain, otherwise build the section list with text chunks. -/
def extract_impacted_areas_from_text (text : String) (maxAreas : Nat) :
    Except TooManyAreasError (List AreaDict) :=
  let ms := findImpactedAux text.data 0
  if ms.isEmpty then .ok []
  else
    let uniq := uniqueAreas ms
    let sortedNums := List.insertionSort (fun a b => tokVal a ≤ tokVal b) (uniq.map (fun p => p.1))
    if sortedNums.length > maxAreas then
      .error { count := sortedNums.length
               preview := sortedNums.take 30
               totalNoted := sortedNums.length > 30 }
    else
      .ok (buildAreas text.data uniq sortedNums)

/-- Number of distinct captured marker numbers in a text, defined directly
from the raw match list (independently of the dedup loop). -/
def distinctOrdinalCount (text : String) : Nat :=
  ((findImpactedAux text.data 0).map (fun m => m.2)).toFinset.card

/-! ## Lemmas about the first-occurrence dedup loop -/

theorem uniqueAreasAux_eq_append (ms : List (Nat × String)) :
    ∀ acc, ∃ t, uniqueAreasAux acc ms = acc ++ t := by
  induction ms with
  | nil => intro acc; exact ⟨[], by simp [uniqueAreasAux]⟩
  | cons m rest ih =>
    intro acc
    obtain ⟨pos, tok⟩ := m
    by_cases h : acc.any (fun p => p.1 == tok) = true
    · simpa [uniqueAreasAux, h] using ih acc
    · obtain ⟨t, ht⟩ := ih (acc ++ [(tok, pos)])
      exact ⟨(tok, pos) :: t, by simp [uniqueAreasAux, h, ht]⟩

theorem key_not_mem_of_not_any {acc : List (String × Nat)} {tok : String}
    (h : ¬ acc.any (fun p => p.1 == tok) = true) : tok ∉ acc.map Prod.fst := by
  intro hm
  rcases List.mem_map.mp hm with ⟨p, hp, he⟩
  exact h (List.any_eq_true.mpr ⟨p, hp, by simp [he]⟩)

theorem mem_keys_uniqueAreasAux (ms : List (Nat × String)) :
    ∀ acc (t : String), t ∈ (uniqueAreasAux acc ms).map Prod.fst ↔
      t ∈ acc.map Prod.fst ∨ t ∈ ms.map Prod.snd := by
  induction ms with
  | nil => intro acc t; simp [uniqueAreasAux]
  | cons m rest ih =>
    intro acc t
    obtain ⟨pos, tok⟩ := m
    by_cases h : acc.any (fun p => p.1 == tok) = true
    · have htok : tok ∈ acc.map Prod.fst := by
        rcases List.any_eq_true.mp h with ⟨p, hp, he⟩
        exact List.mem_map.mpr ⟨p, hp, by simpa using he⟩
      rw [show uniqueAreasAux acc ((pos, tok) :: rest) = uniqueAreasAux acc rest by
        simp [uniqueAreasAux, h]]
      rw [ih]
      simp only [List.map_cons, List.mem_cons]
      constructor
      · rintro (ha | hr)
        · exact Or.inl ha
        · exact Or.inr (Or.inr hr)
      · rintro (ha | heq | hr)
        · exact Or.inl ha
        · exact Or.inl (heq ▸ htok)
        · exact Or.inr hr
    · rw [show uniqueAreasAux acc ((pos, tok) :: rest)
          = uniqueAreasAux (acc ++ [(tok, pos)]) rest by simp [uniqueAreasAux, h]]
      rw [ih]
      simp only [List.map_append, List.map_cons, List.mem_append, List.mem_cons]
      simp only [List.map_nil, List.mem_singleton]
      tauto

theorem nodup_keys_uniqueAreasAux (ms : List (Nat × String)) :
    ∀ acc, (acc.map Prod.fst).Nodup → ((uniqueAreasAux acc ms).map Prod.fst).Nodup := by
  induction ms with
  | nil => intro acc h; simpa [uniqueAreasAux]
  | cons m rest ih =>
    intro acc h
    obtain ⟨pos, tok⟩ := m
    by_cases hh : acc.any (fun p => p.1 == tok) = true
    · rw [show uniqueAreasAux acc ((pos, tok) :: rest) = uniqueAreasAux acc rest by
        simp [uniqueAreasAux, hh]]
      exact ih acc h
    · rw [show uniqueAreasAux acc ((pos, tok) :: rest)
          = uniqueAreasAux (acc ++ [(tok, pos)]) rest by simp [uniqueAreasAux, hh]]
      refine ih _ ?_
      have hnm := key_not_mem_of_not_any hh
      simp only [List.map_append, List.map_cons, List.map_nil]
      rw [List.nodup_append]
      exact ⟨h, List.nodup_singleton _, by simpa using fun hmem => hnm hmem⟩

theorem find?_append_left {α : Type} {p : α → Bool} {l₁ l₂ : List α} {e : α}
    (h : l₁.find? p = some e) : (l₁ ++ l₂).find? p = some e := by
  rw [List.find?_append, h]; rfl

theorem uniqueAreasAux_find?_mem (ms : List (Nat × String)) (acc : List (String × Nat))
    (e : String × Nat) (t : String) (h : acc.find? (fun p => p.1 == t) = some e) :
    (uniqueAreasAux acc ms).find? (fun p => p.1 == t) = some e := by
  obtain ⟨tail, htail⟩ := uniqueAreasAux_eq_append ms acc
  rw [htail]
  exact find?_append_left h

theorem uniqueAreasAux_find?_none (ms : List (Nat × String)) :
    ∀ acc (t : String), acc.find? (fun p => p.1 == t) = none →
    (uniqueAreasAux acc ms).find? (fun p => p.1 == t)
      = (ms.find? (fun m => m.2 == t)).map (fun m => (m.2, m.1)) := by
  induction ms with
  | nil =>
    intro acc t h
    simp only [uniqueAreasAux, List.find?_nil, Option.map_none']
    exact h
  | cons m rest ih =>
    intro acc t h
    obtain ⟨pos, tok⟩ := m
    by_cases hh : acc.any (fun p => p.1 == tok) = true
    · have hne : (tok == t) = false := by
        rw [beq_eq_false_iff_ne]
        rintro rfl
        rcases List.any_eq_true.mp hh with ⟨p, hp, hpe⟩
        exact (List.find?_eq_none.mp h p hp) hpe
      rw [show uniqueAreasAux acc ((pos, tok) :: rest) = uniqueAreasAux acc rest by
        simp [uniqueAreasAux, hh]]
      rw [ih acc t h]
      rw [List.find?_cons_of_neg _ (by simpa using hne)]
    · rw [show uniqueAreasAux acc ((pos, tok) :: rest)
          = uniqueAreasAux (acc ++ [(tok, pos)]) rest by simp [uniqueAreasAux, hh]]
      by_cases he : tok = t
      · subst he
        have hacc' : (acc ++ [(tok, pos)]).find? (fun p => p.1 == tok) = some (tok, pos) := by
          rw [List.find?_append, h]
          simp
        rw [uniqueAreasAux_find?_mem rest _ _ _ hacc']
        rw [List.find?_cons_of_pos _ (by simp)]
        rfl
      · have hacc' : (acc ++ [(tok, pos)]).find? (fun p => p.1 == t) = none := by
          rw [List.find?_append, h]
          simp [he]
        rw [ih _ t hacc']
        rw [List.find?_cons_of_neg _ (by simpa using he)]

theorem length_uniqueAreas_eq_distinct (ms : List (Nat × String)) :
    (uniqueAreas ms).length = ((ms.map Prod.snd).toFinset).card := by
  have hn : ((uniqueAreas ms).map Prod.fst).Nodup :=
    nodup_keys_uniqueAreasAux ms [] (by simp)
  have hset : ((uniqueAreas ms).map Prod.fst).toFinset = (ms.map Prod.snd).toFinset := by
    ext t
    simpa [List.mem_toFinset] using mem_keys_uniqueAreasAux ms [] t
  calc (uniqueAreas ms).length = ((uniqueAreas ms).map Prod.fst).length := by simp
    _ = ((uniqueAreas ms).map Prod.fst).toFinset.card :=
        (List.toFinset_card_of_nodup hn).symm
    _ = _ := by rw [hset]

theorem buildAreas_map_number (text : List Char) (uniq : List (String × Nat))
    (sorted : List String) :
    (buildAreas text uniq sorted).map (fun a => a.area_number) = sorted := by
  have hlen : sorted.length ≤ ((sorted.drop 1).map (startPosOf uniq) ++ [text.length]).length := by
    cases sorted <;> simp
  simp only [buildAreas, List.map_map]
  exact List.map_fst_zip sorted _ hlen

/-! ## Claims about the segmenter -/

/-- **C6** — For every input text whose distinct numbered markers are `1..N`
with `N ≤ max_areas`, the segmenter returns exactly `N` sections sorted in
ascending numeric (not lexical) ordinal order, regardless of the textual
order in which the markers appear in the input string; and for every input
text with zero markers it returns an empty sequence rather than an error.
The first conjunct's hypothesis states that the numeric values of the
distinct marker numbers found in the text are some rearrangement of
`1, …, N`; the conclusion fixes the output's numeric order. -/
theorem segmenter_returns_sorted_sections :
    (∀ (text : String) (N maxAreas : Nat),
      ((uniqueAreas (findImpactedAux text.data 0)).map (fun p => tokVal p.1)).Perm
        (List.range' 1 N) →
      N ≤ maxAreas →
      ∃ areas, extract_impacted_areas_from_text text maxAreas = .ok areas ∧
        areas.length = N ∧
        areas.map (fun a => tokVal a.area_number) = List.range' 1 N) ∧
    (∀ (text : String) (maxAreas : Nat), findImpactedAux text.data 0 = [] →
      extract_impacted_areas_from_text text maxAreas = .ok []) := by
  constructor
  · intro text N maxAreas hperm hle
    by_cases hms : findImpactedAux text.data 0 = []
    · have hN : N = 0 := by
        have : (List.range' 1 N).length = 0 := by
          rw [← hperm.length_eq]
          simp [uniqueAreas, hms, uniqueAreasAux]
        simpa using this
      subst hN
      refine ⟨[], ?_, by simp, by simp⟩
      simp [extract_impacted_areas_from_text, hms]
    · set ms := findImpactedAux text.data 0 with hmsdef
      set uniq := uniqueAreas ms with huniq
      set sorted := List.insertionSort (fun a b => tokVal a ≤ tokVal b)
        (uniq.map (fun p => p.1)) with hsorted
      have hpermsort : sorted.Perm (uniq.map (fun p => p.1)) :=
        List.perm_insertionSort _ _
      have hkeysval : (uniq.map (fun p => p.1)).map tokVal
          = uniq.map (fun p => tokVal p.1) := by
        simp [List.map_map, Function.comp]
      have hvals : (sorted.map tokVal).Perm (List.range' 1 N) := by
        refine List.Perm.trans ?_ hperm
        rw [← hkeysval]
        exact hpermsort.map tokVal
      haveI : IsTotal String (fun a b => tokVal a ≤ tokVal b) :=
        ⟨fun a b => Nat.le_total _ _⟩
      haveI : IsTrans String (fun a b => tokVal a ≤ tokVal b) :=
        ⟨fun _ _ _ => Nat.le_trans⟩
      have hsortedsorted : List.Sorted (fun a b => tokVal a ≤ tokVal b) sorted :=
        List.sorted_insertionSort _ _
      have hsortednat : List.Sorted (· ≤ ·) (sorted.map tokVal) := by
        rw [List.Sorted, List.pairwise_map]
        exact hsortedsorted
      have hrangesorted : List.Sorted (· ≤ ·) (List.range' 1 N) :=
        (List.pairwise_lt_range' 1 N).imp (fun h => le_of_lt h)
      have heq : sorted.map tokVal = List.range' 1 N :=
        List.eq_of_perm_of_sorted hvals hsortednat hrangesorted
      have hlen : sorted.length = N := by
        have := congrArg List.length heq
        simpa using this
      have hnotover : ¬ sorted.length > maxAreas := by
        rw [hlen]
        exact Nat.not_lt.mpr hle
      refine ⟨buildAreas text.data uniq sorted, ?_, ?_, ?_⟩
      · rw [extract_impacted_areas_from_text]
        simp only [← hmsdef, ← huniq, ← hsorted]
        rw [if_neg (by simpa using hms), if_neg hnotover]
      · have := congrArg List.length (buildAreas_map_number text.data uniq sorted)
        simpa [hlen] using this
      · calc (buildAreas text.data uniq sorted).map (fun a => tokVal a.area_number)
            = ((buildAreas text.data uniq sorted).map (fun a => a.area_number)).map tokVal := by
              simp [List.map_map, Function.comp]
          _ = sorted.map tokVal := by rw [buildAreas_map_number]
          _ = List.range' 1 N := heq
  · intro text maxAreas hms
    simp [extract_impacted_areas_from_text, hms]

/-- Witness for C6 at a concrete input: markers `2, 1` out of textual
order yield two sections in ascending numeric order; a marker-free text
yields the empty list. -/
theorem segmenter_returns_sorted_sections_witness :
    (∃ areas, extract_impacted_areas_from_text
        "Impacted Area 2 bb Impacted Area 1 aa" 20 = .ok areas ∧
      areas.length = 2 ∧
      areas.map (fun a => tokVal a.area_number) = List.range' 1 2) ∧
    extract_impacted_areas_from_text "no markers at all" 7 = .ok [] := by
  constructor
  · exact segmenter_returns_sorted_sections.1
      "Impacted Area 2 bb Impacted Area 1 aa" 2 20 (by decide) (by decide)
  · exact segmenter_returns_sorted_sections.2 "no markers at all" 7 (by decide)

/-- **C7** — For every input text containing strictly more than `max_areas`
distinct numbered marker ordinals, the segmenter fails with an overflow
error (never a silent truncation), and the count reported in the error
equals the true number of distinct ordinals found (`distinctOrdinalCount`,
computed directly from the raw match list). -/
theorem segmenter_overflow_reports_true_count (text : String) (maxAreas : Nat)
    (h : distinctOrdinalCount text > maxAreas) :
    ∃ e, extract_impacted_areas_from_text text maxAreas = .error e ∧
      e.count = distinctOrdinalCount text := by
  have hms : ¬ findImpactedAux text.data 0 = [] := by
    intro hempty
    rw [distinctOrdinalCount, hempty] at h
    simp at h
  set ms := findImpactedAux text.data 0 with hmsdef
  set uniq := uniqueAreas ms with huniq
  set sorted := List.insertionSort (fun a b => tokVal a ≤ tokVal b)
    (uniq.map (fun p => p.1)) with hsorted
  have hlen : sorted.length = distinctOrdinalCount text := by
    rw [hsorted, List.length_insertionSort, List.length_map]
    rw [huniq, hmsdef, distinctOrdinalCount]
    exact length_uniqueAreas_eq_distinct _
  refine ⟨{ count := sorted.length, preview := sorted.take 30,
            totalNoted := decide (sorted.length > 30) }, ?_, ?_⟩
  · rw [extract_impacted_areas_from_text]
    simp only [← hmsdef, ← huniq, ← hsorted]
    rw [if_neg (by simpa using hms)]
    rw [if_pos (by rw [hlen]; exact h)]
  · simpa using hlen

/-- Witness for C7: 3 distinct markers against a maximum of 2 fail with
the true distinct count 3 reported. -/
theorem segmenter_overflow_reports_true_count_witness :
    distinctOrdinalCount "Impacted Area 3 Impacted Area 1 Impacted Area 2 Impacted Area 1" > 2 ∧
    ∃ e, extract_impacted_areas_from_text
        "Impacted Area 3 Impacted Area 1 Impacted Area 2 Impacted Area 1" 2 = .error e ∧
      e.count = distinctOrdinalCount
        "Impacted Area 3 Impacted Area 1 Impacted Area 2 Impacted Area 1" :=
  ⟨by decide, segmenter_overflow_reports_true_count _ 2 (by decide)⟩

/-- **C8, counterexample** — the claim that the segmenter's result on a text
with a duplicated marker equals its result on the text with the later
duplicate marker removed is false: removing the duplicate marker text
shrinks the chunk of the section that contained it, so the two results
differ (here in the `text_chunk` of section 2). -/
theorem segmenter_dup_removal_cex :
    extract_impacted_areas_from_text
        "Impacted Area 1 aa Impacted Area 2 bb Impacted Area 1 cc" 20 ≠
      extract_impacted_areas_from_text
        "Impacted Area 1 aa Impacted Area 2 bb  cc" 20 := by
  intro h
  have h' := congrArg Except.toOption h
  revert h'
  decide

/-- **C8, amended** — segmentation keeps only the first occurrence (by text
position) of a duplicated marker ordinal: exactly one `AreaSection` is
produced per distinct ordinal token found in the text, and each produced
section's text chunk starts at the position of that ordinal's first
occurrence.  (The full result need not equal that of the text with later
duplicate markers deleted, since deleting marker text changes the chunks.) -/
theorem segmenter_dup_first_occurrence_wins (text : String) (maxAreas : Nat)
    (areas : List AreaDict)
    (h : extract_impacted_areas_from_text text maxAreas = .ok areas) :
    (areas.map (fun a => a.area_number)).Nodup ∧
    (∀ t, t ∈ areas.map (fun a => a.area_number) ↔
      t ∈ (findImpactedAux text.data 0).map (fun m => m.2)) ∧
    ∀ a ∈ areas, ∃ s e,
      (findImpactedAux text.data 0).find? (fun m => m.2 == a.area_number)
        = some (s, a.area_number) ∧
      a.text_chunk = sliceStr text.data s e := by
  by_cases hms : findImpactedAux text.data 0 = []
  · have hareas : areas = [] := by
      rw [extract_impacted_areas_from_text] at h
      rw [if_pos (by simp [hms])] at h
      injection h with h'
      exact h'.symm
    subst hareas
    refine ⟨by simp, ?_, by simp⟩
    intro t
    simp [hms]
  · set ms := findImpactedAux text.data 0 with hmsdef
    set uniq := uniqueAreas ms with huniq
    set sorted := List.insertionSort (fun a b => tokVal a ≤ tokVal b)
      (uniq.map (fun p => p.1)) with hsorted
    rw [extract_impacted_areas_from_text] at h
    simp only [← hmsdef, ← huniq, ← hsorted] at h
    rw [if_neg (by simpa using hms)] at h
    by_cases hover : sorted.length > maxAreas
    · rw [if_pos hover] at h
      exact absurd h (by simp)
    · rw [if_neg hover] at h
      have hareas : areas = buildAreas text.data uniq sorted := by
        injection h with h'
        exact h'.symm
      subst hareas
      have hnum := buildAreas_map_number text.data uniq sorted
      have hkeysnodup : (uniq.map Prod.fst).Nodup :=
        nodup_keys_uniqueAreasAux ms [] (by simp)
      have hsortednodup : sorted.Nodup :=
        (List.perm_insertionSort _ _).symm.nodup (by simpa [Prod.fst] using hkeysnodup)
      refine ⟨by rw [hnum]; exact hsortednodup, ?_, ?_⟩
      · intro t
        rw [hnum]
        have h1 : t ∈ sorted ↔ t ∈ uniq.map (fun p => p.1) := by
          rw [hsorted]
          exact List.mem_insertionSort _
        have h2 : t ∈ uniq.map Prod.fst ↔ t ∈ ms.map Prod.snd := by
          simpa [huniq, uniqueAreas] using mem_keys_uniqueAreasAux ms [] t
        rw [h1]
        exact h2
      · intro a ha
        simp only [buildAreas, List.mem_map] at ha
        obtain ⟨p, hp, hpa⟩ := ha
        have htok : p.1 ∈ sorted := (List.of_mem_zip hp).1
        have htokms : p.1 ∈ ms.map Prod.snd := by
          have h2 : p.1 ∈ uniq.map Prod.fst ↔ p.1 ∈ ms.map Prod.snd := by
            simpa [huniq, uniqueAreas] using mem_keys_uniqueAreasAux ms [] p.1
          refine h2.mp ?_
          have := (List.mem_insertionSort (fun a b => tokVal a ≤ tokVal b)).mp
            (hsorted ▸ htok)
          simpa using this
        obtain ⟨m, hm, hmt⟩ := List.mem_map.mp htokms
        have hfind : ∃ mm, ms.find? (fun m => m.2 == p.1) = some mm := by
          have : (ms.find? (fun m => m.2 == p.1)).isSome :=
            List.find?_isSome.mpr ⟨m, hm, by simp [hmt]⟩
          exact Option.isSome_iff_exists.mp this
        obtain ⟨mm, hmm⟩ := hfind
        have hmmtok : mm.2 = p.1 := by
          have := List.find?_some hmm
          simpa using this
        have huniqfind : uniq.find? (fun q => q.1 == p.1) = some (mm.2, mm.1) := by
          rw [huniq, uniqueAreas]
          rw [uniqueAreasAux_find?_none ms [] p.1 (by simp)]
          rw [hmm]
          rfl
        refine ⟨mm.1, p.2, ?_, ?_⟩
        · rw [← hpa]
          show ms.find? (fun m => m.2 == p.1) = some (mm.1, p.1)
          rw [hmm, ← hmmtok]
        · rw [← hpa]
          show sliceStr text.data (startPosOf uniq p.1) p.2 = sliceStr text.data mm.1 p.2
          have hstart : startPosOf uniq p.1 = mm.1 := by
            rw [startPosOf, huniqfind]
            rfl
          rw [hstart]

/-- Witness for C8's amended theorem: on a text repeating marker `1`,
exactly one section per distinct ordinal is produced, with nodup ordinals
covering exactly the scanned tokens. -/
theorem segmenter_dup_first_occurrence_wins_witness :
    extract_impacted_areas_from_text
        "Impacted Area 1 aa Impacted Area 2 bb Impacted Area 1 cc" 20
      = .ok [⟨"1", "Impacted Area 1", "Impacted Area 1 aa "⟩,
             ⟨"2", "Impacted Area 2", "Impacted Area 2 bb Impacted Area 1 cc"⟩] ∧
    (([⟨"1", "Impacted Area 1", "Impacted Area 1 aa "⟩,
       ⟨"2", "Impacted Area 2", "Impacted Area 2 bb Impacted Area 1 cc"⟩] :
        List AreaDict).map (fun a => a.area_number)).Nodup := by
  have hok : extract_impacted_areas_from_text
      "Impacted Area 1 aa Impacted Area 2 bb Impacted Area 1 cc" 20
      = .ok [⟨"1", "Impacted Area 1", "Impacted Area 1 aa "⟩,
             ⟨"2", "Impacted Area 2", "Impacted Area 2 bb Impacted Area 1 cc"⟩] := by
    have h : (extract_impacted_areas_from_text
        "Impacted Area 1 aa Impacted Area 2 bb Impacted Area 1 cc" 20).toOption
        = some [⟨"1", "Impacted Area 1", "Impacted Area 1 aa "⟩,
                ⟨"2", "Impacted Area 2", "Impacted Area 2 bb Impacted Area 1 cc"⟩] := by
      decide
    revert h
    cases extract_impacted_areas_from_text
        "Impacted Area 1 aa Impacted Area 2 bb Impacted Area 1 cc" 20 with
    | error e => simp [Except.toOption]
    | ok v => simp [Except.toOption]
  exact ⟨hok, (segmenter_dup_first_occurrence_wins _ 20 _ hok).1⟩

/-! ## Structural validator (`validator.py`)

Python dicts are modelled by records.  An area's `area_name` is a plain
`Option String` whose `none` models an *absent* key: an `"area_name"` key
mapped to the value `None` is outside this model, because on such an area
the source itself crashes with an uncaught `AttributeError` at
`area.get("area_name", "").lower()` in check 2 before any output exists.
The thermal fields are two-layer `Option (Option String)` because
`"area" in reading` / `"image_id" not in reading` distinguish key presence
from a `None` value; an `"image_id"` key mapped to `None` *is* representable
(`some none`) and is handled faithfully: checks 1–3 treat it as falsy, while
check 4 calls `.lower()` on it, raising an uncaught `AttributeError` — see
`validate_all_run`, the total model of the call including that crash.
Observation-list fields are `Option (List String)`: `none` stands for any
non-list-shaped value, which is all `isinstance(…, list)` can observe. -/

/-- Python `str.lower()` on ASCII text, computed characterwise. -/
def pyLower (s : String) : String := String.mk (s.data.map Char.toLower)

/-- Python truthiness of `dict.get(k)` for a string-valued key. -/
def truthyStr : Option String → Bool
  | none => false
  | some s => !(s == "")

/-- `reading.get(field)` through a presence-aware field. -/
def pyGet (f : Option (Option String)) : Option String := f.join

def truthyField (f : Option (Option String)) : Bool := truthyStr (pyGet f)

/-- Python `pat in hay` helper: `pat` occurs as a contiguous substring. -/
def listIsPrefixOf : List Char → List Char → Bool
  | [], _ => true
  | _ :: _, [] => false
  | p :: ps, c :: cs => p == c && listIsPrefixOf ps cs

def listContains (hay pat : List Char) : Bool :=
  match hay with
  | [] => pat.isEmpty
  | _ :: cs => listIsPrefixOf pat hay || listContains cs pat

def strContains (hay pat : String) : Bool := listContains hay.data pat.data

/-- Python `str.isupper` on ASCII text: at least one cased character and no
lowercase character. -/
def pyIsUpper (s : String) : Bool :=
  s.data.any Char.isAlpha && s.data.all (fun c => !c.isLower)

structure PyArea where
  area_name : Option String
  negative_observations : Option (List String)
  positive_observations : Option (List String)
deriving DecidableEq, Repr

structure PyThermal where
  image_id : Option (Option String)
  area : Option (Option String)
  hotspot : Option (Option String)
  coldspot : Option (Option String)
  temperature_difference : Option (Option String)
  interpretation : Option (Option String)
deriving DecidableEq, Repr

structure InspData where
  areas : List PyArea
deriving DecidableEq, Repr

structure ThermData where
  thermal_readings : List PyThermal
deriving DecidableEq, Repr

/-- The `ValidationError`s the validator can raise, with the data their
messages interpolate. -/
inductive VError where
  | areaCountExceeded (count : Nat) (names : List String)
  | thermalIdInArea (name : Option String)
  | thermalUsesArea (index : Nat)
deriving DecidableEq, Repr

/-- The entries appended to `results["warnings"]`. -/
inductive VWarning where
  | noAreas
  | suspiciousAreaName (name : Option String)
  | imageIdLooksLikeArea (id : String)
  | imageIdMatchesArea (id : Option String)
deriving DecidableEq, Repr

def MAX_AREAS : Nat := 20

def thermal_patterns : List String :=
  [".jpg", ".jpeg", ".png", "rb0", "rb_", "ir_", "ir0"]

def containsThermalPattern (nameL : String) : Bool :=
  thermal_patterns.any (fun p => strContains nameL p)

def common_areas : List String :=
  ["hall", "bedroom", "kitchen", "bathroom", "living", "dining"]

/-- Check 1: `_validate_area_count`.  Raises on overflow (before the zero
check), appends a warning when no areas were extracted. -/
def validate_area_count (insp : InspData) (ws : List VWarning) :
    Except (List VWarning × VError) (List VWarning) :=
  let areas := insp.areas
  if areas.length > MAX_AREAS then
    .error (ws, .areaCountExceeded areas.length
      ((areas.take 30).map (fun a => a.area_name.getD "UNKNOWN")))
  else if areas.length == 0 then .ok (ws ++ [.noAreas])
  else .ok ws

/-- The suspicious-name warning appended (or not) for one non-raising area
in `_validate_no_thermal_ids_in_areas`. -/
def areaWarnStep (ws : List VWarning) (a : PyArea) : List VWarning :=
  let nameL := pyLower (a.area_name.getD "")
  if nameL.length > 30 || (pyIsUpper nameL && nameL.length > 10)
  then ws ++ [.suspiciousAreaName a.area_name] else ws

/-- Check 2: `_validate_no_thermal_ids_in_areas`.  Raises at the first area
whose lowered name contains a thermal pattern; otherwise may append a
suspicious-name warning per area. -/
def validate_no_thermal_ids_in_areas_aux (ws : List VWarning) :
    List PyArea → Except (List VWarning × VError) (List VWarning)
  | [] => .ok ws
  | a :: rest =>
    if containsThermalPattern (pyLower (a.area_name.getD "")) then
      .error (ws, .thermalIdInArea a.area_name)
    else
      validate_no_thermal_ids_in_areas_aux (areaWarnStep ws a) rest

def validate_no_thermal_ids_in_areas (insp : InspData) (ws : List VWarning) :
    Except (List VWarning × VError) (List VWarning) :=
  validate_no_thermal_ids_in_areas_aux ws insp.areas

/-- The id-looks-like-area warning appended (or not) for one non-raising
reading in `_validate_thermal_structure` (falsy and `"Not Available"` ids
are skipped). -/
def thermalWarnStep (ws : List VWarning) (r : PyThermal) : List VWarning :=
  let image_id := (pyGet r.image_id).getD ""
  if image_id == "" || image_id == "Not Available" then ws
  else if common_areas.any (fun w => strContains (pyLower image_id) w)
  then ws ++ [.imageIdLooksLikeArea image_id] else ws

/-- Check 3: `_validate_thermal_structure`.  Raises at the first reading
that carries an `"area"` key without an `"image_id"` key; otherwise may
append an id-looks-like-area warning per reading. -/
def validate_thermal_structure_aux (ws : List VWarning) (i : Nat) :
    List PyThermal → Except (List VWarning × VError) (List VWarning)
  | [] => .ok ws
  | r :: rest =>
    if r.area.isSome && r.image_id.isNone then
      .error (ws, .thermalUsesArea i)
    else
      validate_thermal_structure_aux (thermalWarnStep ws r) (i + 1) rest

def validate_thermal_structure (therm : ThermData) (ws : List VWarning) :
    Except (List VWarning × VError) (List VWarning) :=
  validate_thermal_structure_aux ws 0 therm.thermal_readings

/-- The uncaught exception of check 4: `reading.get("image_id", "").lower()`
raises `AttributeError: 'NoneType' object has no attribute 'lower'` when the
`"image_id"` key is present but mapped to `None`.  `except ValidationError`
does not catch it, so the whole `validate_all` call raises and produces no
output at all. -/
inductive PyAttributeError where
  | noneHasNoLower
deriving DecidableEq, Repr

/-- The matches-area-name warning appended (or not) for one reading whose
`image_id` value is not `None` in `_validate_no_areas_in_thermal`. -/
def imageMatchStep (area_names : List String) (ws : List VWarning)
    (r : PyThermal) : List VWarning :=
  let iid := pyLower ((pyGet r.image_id).getD "")
  if area_names.contains iid then ws ++ [.imageIdMatchesArea (pyGet r.image_id)]
  else ws

/-- Check 4, warnings only, on the domain where no reading's `"image_id"`
key is mapped to `None`.  On a reading with `image_id = some none` this
function is *not* faithful — the source raises an uncaught `AttributeError`
there; `validate_no_areas_in_thermal_run` below is the faithful version and
`validate_all_run` the faithful top-level model. -/
def validate_no_areas_in_thermal (insp : InspData) (therm : ThermData)
    (ws : List VWarning) : List VWarning :=
  let area_names := insp.areas.map (fun a => pyLower (a.area_name.getD ""))
  therm.thermal_readings.foldl (imageMatchStep area_names) ws

/-- Check 4, faithfully: the loop stops with an uncaught `AttributeError`
at the first reading whose `"image_id"` key is mapped to `None` (the
warnings appended before the crash are lost with the raise). -/
def validate_no_areas_in_thermal_run_aux (area_names : List String)
    (ws : List VWarning) : List PyThermal → Except PyAttributeError (List VWarning)
  | [] => .ok ws
  | r :: rest =>
    match r.image_id with
    | some none => .error .noneHasNoLower
    | _ => validate_no_areas_in_thermal_run_aux area_names
        (imageMatchStep area_names ws r) rest

def validate_no_areas_in_thermal_run (insp : InspData) (therm : ThermData)
    (ws : List VWarning) : Except PyAttributeError (List VWarning) :=
  let area_names := insp.areas.map (fun a => pyLower (a.area_name.getD ""))
  validate_no_areas_in_thermal_run_aux area_names ws therm.thermal_readings

/-- `_clean_null_fields` on one area record. -/
def cleanArea (a : PyArea) : PyArea :=
  { area_name := if truthyStr a.area_name then a.area_name else some "Not Available"
    negative_observations := some (a.negative_observations.getD [])
    positive_observations := some (a.positive_observations.getD []) }

def cleanThermalField (f : Option (Option String)) : Option (Option String) :=
  if truthyField f then f else some (some "Not Available")

/-- `_clean_null_fields` on one thermal reading: the five listed fields are
rewritten when falsy; the `area` key is untouched. -/
def cleanThermal (r : PyThermal) : PyThermal :=
  { r with
    image_id := cleanThermalField r.image_id
    hotspot := cleanThermalField r.hotspot
    coldspot := cleanThermalField r.coldspot
    temperature_difference := cleanThermalField r.temperature_difference
    interpretation := cleanThermalField r.interpretation }

def clean_null_fields_insp (d : InspData) : InspData :=
  ⟨d.areas.map cleanArea⟩

def clean_null_fields_therm (d : ThermData) : ThermData :=
  ⟨d.thermal_readings.map cleanThermal⟩

structure VResults where
  valid : Bool
  errors : List VError
  warnings : List VWarning
  area_count : Nat
  thermal_count : Nat
deriving DecidableEq, Repr

structure VOutput where
  validation : VResults
  inspection : InspData
  thermal : ThermData
deriving DecidableEq, Repr

/-- The output assembled when a `ValidationError` was caught: `valid` is
false, the single caught error is appended, the warnings accumulated before
the raise persist, and the collections are returned as they were (the
cleaning step was skipped by the exception). -/
def failOutput (insp : InspData) (therm : ThermData)
    (ws : List VWarning) (e : VError) : VOutput :=
  { validation := { valid := false, errors := [e], warnings := ws
                    area_count := insp.areas.length
                    thermal_count := therm.thermal_readings.length }
    inspection := insp, thermal := therm }

/-- `StructuralValidator.validate_all` on the inputs where the call returns
normally: the checks run in order inside one `try`; the first raised
`ValidationError` aborts the remaining checks (including null-field
cleaning) and is recorded; counts are taken from whatever collections are
returned.  On an input whose check-4 `.lower()` call crashes this function
is *not* the program (the program returns nothing there) —
`validate_all_run` below is the total, faithful model. -/
def validate_all (insp : InspData) (therm : ThermData) : VOutput :=
  match validate_area_count insp [] with
  | .error (ws, e) => failOutput insp therm ws e
  | .ok w1 =>
    match validate_no_thermal_ids_in_areas insp w1 with
    | .error (ws, e) => failOutput insp therm ws e
    | .ok w2 =>
      match validate_thermal_structure therm w2 with
      | .error (ws, e) => failOutput insp therm ws e
      | .ok w3 =>
        let w4 := validate_no_areas_in_thermal insp therm w3
        let insp' := clean_null_fields_insp insp
        let therm' := clean_null_fields_therm therm
        { validation := { valid := true, errors := [], warnings := w4
                          area_count := insp'.areas.length
                          thermal_count := therm'.thermal_readings.length }
          inspection := insp', thermal := therm' }

/-- The faithful top-level model of a `validate_all` call, including the
uncaught `AttributeError` path: `.ok` is a normal return (with a caught
`ValidationError` recorded or the cleaned success output), `.error` is the
call raising through check 4 with no output, no recorded error and no
normalization. -/
def validate_all_run (insp : InspData) (therm : ThermData) :
    Except PyAttributeError VOutput :=
  match validate_area_count insp [] with
  | .error (ws, e) => .ok (failOutput insp therm ws e)
  | .ok w1 =>
    match validate_no_thermal_ids_in_areas insp w1 with
    | .error (ws, e) => .ok (failOutput insp therm ws e)
    | .ok w2 =>
      match validate_thermal_structure therm w2 with
      | .error (ws, e) => .ok (failOutput insp therm ws e)
      | .ok w3 =>
        match validate_no_areas_in_thermal_run insp therm w3 with
        | .error e => .error e
        | .ok w4 =>
          let insp' := clean_null_fields_insp insp
          let therm' := clean_null_fields_therm therm
          .ok { validation := { valid := true, errors := [], warnings := w4
                                area_count := insp'.areas.length
                                thermal_count := therm'.thermal_readings.length }
                inspection := insp', thermal := therm' }

/-! ## Lemmas about the validator -/

theorem failOutput_invalid (insp : InspData) (therm : ThermData)
    (ws : List VWarning) (e : VError) :
    (failOutput insp therm ws e).validation.valid = false ∧
    (failOutput insp therm ws e).validation.errors ≠ [] := by
  simp [failOutput]

theorem validate_no_thermal_ids_error_of_pattern (areas : List PyArea)
    (h : ∃ a ∈ areas, containsThermalPattern (pyLower (a.area_name.getD "")) = true) :
    ∀ ws, ∃ ws' e, validate_no_thermal_ids_in_areas_aux ws areas = .error (ws', e) := by
  induction areas with
  | nil => simp at h
  | cons a rest ih =>
    intro ws
    by_cases hc : containsThermalPattern (pyLower (a.area_name.getD "")) = true
    · exact ⟨ws, .thermalIdInArea a.area_name,
        by simp [validate_no_thermal_ids_in_areas_aux, hc]⟩
    · obtain ⟨b, hb, hbc⟩ := h
      rcases List.mem_cons.mp hb with rfl | hbrest
      · exact absurd hbc hc
      · rw [show validate_no_thermal_ids_in_areas_aux ws (a :: rest)
            = validate_no_thermal_ids_in_areas_aux (areaWarnStep ws a) rest by
          simp [validate_no_thermal_ids_in_areas_aux, hc]]
        exact ih ⟨b, hbrest, hbc⟩ (areaWarnStep ws a)

theorem validate_thermal_structure_error_of_bad (rs : List PyThermal)
    (h : ∃ r ∈ rs, r.area.isSome ∧ r.image_id = none) :
    ∀ ws i, ∃ ws' e, validate_thermal_structure_aux ws i rs = .error (ws', e) := by
  induction rs with
  | nil => simp at h
  | cons r rest ih =>
    intro ws i
    by_cases hc : (r.area.isSome && r.image_id.isNone) = true
    · exact ⟨ws, .thermalUsesArea i, by simp [validate_thermal_structure_aux, hc]⟩
    · obtain ⟨b, hb, hbc⟩ := h
      rcases List.mem_cons.mp hb with rfl | hbrest
      · refine absurd ?_ hc
        simp [hbc.1, hbc.2]
      · rw [show validate_thermal_structure_aux ws i (r :: rest)
            = validate_thermal_structure_aux (thermalWarnStep ws r) (i + 1) rest by
          simp [validate_thermal_structure_aux, hc]]
        exact ih ⟨b, hbrest, hbc⟩ (thermalWarnStep ws r) (i + 1)

theorem validate_area_count_of_big {insp : InspData} (ws : List VWarning)
    (h : insp.areas.length > MAX_AREAS) :
    validate_area_count insp ws = .error (ws, .areaCountExceeded insp.areas.length
      ((insp.areas.take 30).map (fun a => a.area_name.getD "UNKNOWN"))) := by
  simp [validate_area_count, h]

/-! ## Claims about the validator -/

/-- **C4** — For every thermal-readings input, a reading that carries an
`"area"` key and no `"image_id"` key always causes validation to fail with a
hard error (`valid = false` and a non-empty `errors` list), never a mere
warning.  (If an earlier check already raised, validation has failed with
that earlier hard error; otherwise check 3 raises at the first such
reading.) -/
theorem thermal_area_without_image_id_hard_error (insp : InspData) (therm : ThermData)
    (h : ∃ r ∈ therm.thermal_readings, r.area.isSome ∧ r.image_id = none) :
    (validate_all insp therm).validation.valid = false ∧
    (validate_all insp therm).validation.errors ≠ [] := by
  cases h1 : validate_area_count insp [] with
  | error p =>
    obtain ⟨ws, e⟩ := p
    simp only [validate_all, h1]
    exact failOutput_invalid insp therm ws e
  | ok w1 =>
    cases h2 : validate_no_thermal_ids_in_areas insp w1 with
    | error p =>
      obtain ⟨ws, e⟩ := p
      simp only [validate_all, h1, h2]
      exact failOutput_invalid insp therm ws e
    | ok w2 =>
      obtain ⟨ws', e, he⟩ :=
        validate_thermal_structure_error_of_bad therm.thermal_readings h w2 0
      have h3 : validate_thermal_structure therm w2 = .error (ws', e) := he
      simp only [validate_all, h1, h2, h3]
      exact failOutput_invalid insp therm ws' e

/-- Witness for C4: a reading with an `"area"` key (mapped to `None`) and no
`"image_id"` key makes validation fail hard. -/
theorem thermal_area_without_image_id_hard_error_witness :
    (validate_all ⟨[⟨some "Hall", some ["damp"], some []⟩]⟩
      ⟨[⟨none, some none, none, none, none, none⟩]⟩).validation.valid = false ∧
    (validate_all ⟨[⟨some "Hall", some ["damp"], some []⟩]⟩
      ⟨[⟨none, some none, none, none, none, none⟩]⟩).validation.errors ≠ [] :=
  thermal_area_without_image_id_hard_error _ _ ⟨⟨none, some none, none, none, none, none⟩,
    by decide, by decide, rfl⟩

/-- **C5** — For every areas input, an area whose name contains a `.jpg`,
`.jpeg` or `.png` substring or a known thermal-device-code prefix
(`rb0`, `rb_`, `ir_`, `ir0`), case-insensitively, always causes validation
to fail with a hard error (`valid = false`, non-empty `errors`), never a
mere warning.  (Check 2 raises at the first such area; if check 1 already
raised on the area count, validation has failed with that hard error.) -/
theorem thermal_id_in_area_name_hard_error (insp : InspData) (therm : ThermData)
    (h : ∃ a ∈ insp.areas, containsThermalPattern (pyLower (a.area_name.getD "")) = true) :
    (validate_all insp therm).validation.valid = false ∧
    (validate_all insp therm).validation.errors ≠ [] := by
  cases h1 : validate_area_count insp [] with
  | error p =>
    obtain ⟨ws, e⟩ := p
    simp only [validate_all, h1]
    exact failOutput_invalid insp therm ws e
  | ok w1 =>
    obtain ⟨ws', e, he⟩ := validate_no_thermal_ids_error_of_pattern insp.areas h w1
    have h2 : validate_no_thermal_ids_in_areas insp w1 = .error (ws', e) := he
    simp only [validate_all, h1, h2]
    exact failOutput_invalid insp therm ws' e

/-- Witness for C5: an area named `"Wall RB0238.JPG"` fails validation
hard. -/
theorem thermal_id_in_area_name_hard_error_witness :
    (validate_all ⟨[⟨some "Wall RB0238.JPG", some [], some []⟩]⟩
      ⟨[]⟩).validation.valid = false ∧
    (validate_all ⟨[⟨some "Wall RB0238.JPG", some [], some []⟩]⟩
      ⟨[]⟩).validation.errors ≠ [] :=
  thermal_id_in_area_name_hard_error _ _ ⟨⟨some "Wall RB0238.JPG", some [], some []⟩,
    by decide, by decide⟩

/-- **C3, counterexample** — the claim that all checks run without
short-circuiting (except area-count overflow) and that null-field
normalization is applied regardless of error state is false: an area name
containing `.jpg` raises in check 2, which skips check 3, check 4 *and* the
cleaning step, so the returned collections are not normalized (here the
reading's falsy `hotspot` is not rewritten to `"Not Available"`, nor the
area's missing observation lists to `[]`). -/
theorem validator_normalization_skipped_cex :
    (validate_all ⟨[⟨some "wall.jpg", none, none⟩]⟩
        ⟨[⟨some (some "RB1.JPG"), none, none, none, none, none⟩]⟩).validation.errors ≠ [] ∧
    (validate_all ⟨[⟨some "wall.jpg", none, none⟩]⟩
        ⟨[⟨some (some "RB1.JPG"), none, none, none, none, none⟩]⟩).thermal ≠
      clean_null_fields_therm ⟨[⟨some (some "RB1.JPG"), none, none, none, none, none⟩]⟩ ∧
    (validate_all ⟨[⟨some "wall.jpg", none, none⟩]⟩
        ⟨[⟨some (some "RB1.JPG"), none, none, none, none, none⟩]⟩).inspection ≠
      clean_null_fields_insp ⟨[⟨some "wall.jpg", none, none⟩]⟩ := by
  decide

theorem except_eq_ok_of_toOption {ε α : Type} {e : Except ε α} {a : α}
    (h : e.toOption = some a) : e = .ok a := by
  cases e with
  | error x => simp [Except.toOption] at h
  | ok b =>
    simp only [Except.toOption] at h
    injection h with h'
    rw [h']

theorem no_areas_in_thermal_run_crash (area_names : List String)
    (rs : List PyThermal) (h : ∃ r ∈ rs, r.image_id = some none) :
    ∀ ws, validate_no_areas_in_thermal_run_aux area_names ws rs
      = .error .noneHasNoLower := by
  induction rs with
  | nil => simp at h
  | cons r rest ih =>
    intro ws
    rcases hid : r.image_id with _ | os
    · obtain ⟨b, hb, hbc⟩ := h
      rcases List.mem_cons.mp hb with rfl | hbrest
      · rw [hid] at hbc
        exact absurd hbc (by simp)
      · rw [show validate_no_areas_in_thermal_run_aux area_names ws (r :: rest)
            = validate_no_areas_in_thermal_run_aux area_names
                (imageMatchStep area_names ws r) rest by
          simp [validate_no_areas_in_thermal_run_aux, hid]]
        exact ih ⟨b, hbrest, hbc⟩ _
    · rcases os with _ | s
      · simp [validate_no_areas_in_thermal_run_aux, hid]
      · obtain ⟨b, hb, hbc⟩ := h
        rcases List.mem_cons.mp hb with rfl | hbrest
        · rw [hid] at hbc
          exact absurd hbc (by simp)
        · rw [show validate_no_areas_in_thermal_run_aux area_names ws (r :: rest)
              = validate_no_areas_in_thermal_run_aux area_names
                  (imageMatchStep area_names ws r) rest by
            simp [validate_no_areas_in_thermal_run_aux, hid]]
          exact ih ⟨b, hbrest, hbc⟩ _

/-- **C3, amended** — the checks run in their fixed order inside one `try`
block, and the *first* `ValidationError` short-circuits every later check
including null-field normalization: whenever the call returns, normalization
has been applied to both collections exactly when no hard error is recorded,
the collections are returned unchanged when one is, at most one error is
ever recorded, and an area-count overflow is always the error reported
(check 1 runs first).  If checks 1–3 pass and some thermal reading's
`"image_id"` key is mapped to `None`, the call does not return at all:
check 4 raises an uncaught `AttributeError`, recording no error and
normalizing nothing. -/
theorem validator_first_error_short_circuits (insp : InspData) (therm : ThermData) :
    (∀ out, validate_all_run insp therm = .ok out →
      (out.validation.errors = [] →
        out.validation.valid = true ∧
        out.inspection = clean_null_fields_insp insp ∧
        out.thermal = clean_null_fields_therm therm) ∧
      (out.validation.errors ≠ [] →
        out.validation.valid = false ∧
        out.inspection = insp ∧
        out.thermal = therm) ∧
      out.validation.errors.length ≤ 1) ∧
    (insp.areas.length > MAX_AREAS →
      validate_all_run insp therm
        = .ok (failOutput insp therm [] (.areaCountExceeded insp.areas.length
            ((insp.areas.take 30).map (fun a => a.area_name.getD "UNKNOWN"))))) ∧
    (∀ w1 w2 w3, validate_area_count insp [] = .ok w1 →
      validate_no_thermal_ids_in_areas insp w1 = .ok w2 →
      validate_thermal_structure therm w2 = .ok w3 →
      (∃ r ∈ therm.thermal_readings, r.image_id = some none) →
      validate_all_run insp therm = .error .noneHasNoLower) := by
  refine ⟨?_, ?_, ?_⟩
  · intro out hout
    cases h1 : validate_area_count insp [] with
    | error p =>
      obtain ⟨ws, e⟩ := p
      simp only [validate_all_run, h1] at hout
      injection hout with h'
      subst h'
      exact ⟨by simp [failOutput], fun _ => by simp [failOutput], by simp [failOutput]⟩
    | ok w1 =>
      cases h2 : validate_no_thermal_ids_in_areas insp w1 with
      | error p =>
        obtain ⟨ws, e⟩ := p
        simp only [validate_all_run, h1, h2] at hout
        injection hout with h'
        subst h'
        exact ⟨by simp [failOutput], fun _ => by simp [failOutput], by simp [failOutput]⟩
      | ok w2 =>
        cases h3 : validate_thermal_structure therm w2 with
        | error p =>
          obtain ⟨ws, e⟩ := p
          simp only [validate_all_run, h1, h2, h3] at hout
          injection hout with h'
          subst h'
          exact ⟨by simp [failOutput], fun _ => by simp [failOutput], by simp [failOutput]⟩
        | ok w3 =>
          cases h4 : validate_no_areas_in_thermal_run insp therm w3 with
          | error e =>
            simp only [validate_all_run, h1, h2, h3, h4] at hout
            exact absurd hout (by simp)
          | ok w4 =>
            simp only [validate_all_run, h1, h2, h3, h4] at hout
            injection hout with h'
            subst h'
            refine ⟨fun _ => ⟨rfl, rfl, rfl⟩, fun hne => absurd rfl hne, by simp⟩
  · intro hbig
    have h1 := validate_area_count_of_big ([] : List VWarning) hbig
    simp only [validate_all_run, h1]
  · intro w1 w2 w3 hw1 hw2 hw3 hbad
    have h4 : validate_no_areas_in_thermal_run insp therm w3 = .error .noneHasNoLower := by
      simp only [validate_no_areas_in_thermal_run]
      exact no_areas_in_thermal_run_crash _ _ hbad w3
    simp only [validate_all_run, hw1, hw2, hw3, h4]

/-- Witness for C3's amended theorem at concrete inputs: a clean input
returns normally with normalization applied (missing observation list
coerced to `[]`); an input with 21 areas reports exactly the area-count
error; and a reading whose `"image_id"` key is mapped to `None` makes the
call raise the uncaught `AttributeError` instead of returning. -/
theorem validator_first_error_short_circuits_witness :
    (validate_all_run ⟨[⟨some "Hall", some ["damp"], none⟩]⟩ ⟨[]⟩).map
        (fun o => o.inspection)
      = .ok (clean_null_fields_insp ⟨[⟨some "Hall", some ["damp"], none⟩]⟩) ∧
    (validate_all_run ⟨List.replicate 21 ⟨some "Hall", some [], some []⟩⟩ ⟨[]⟩).map
        (fun o => o.validation.errors)
      = .ok [.areaCountExceeded 21 (List.replicate 21 "Hall")] ∧
    validate_all_run ⟨[⟨some "Hall", some [], some []⟩]⟩
        ⟨[⟨some none, none, none, none, none, none⟩]⟩ = .error .noneHasNoLower := by
  refine ⟨?_, ?_, ?_⟩
  · have hrun : validate_all_run ⟨[⟨some "Hall", some ["damp"], none⟩]⟩ ⟨[]⟩
        = .ok { validation := { valid := true, errors := [], warnings := []
                                area_count := 1, thermal_count := 0 }
                inspection := ⟨[⟨some "Hall", some ["damp"], some []⟩]⟩
                thermal := ⟨[]⟩ } :=
      except_eq_ok_of_toOption (by decide)
    rw [hrun]
    have hnorm := (((validator_first_error_short_circuits
        ⟨[⟨some "Hall", some ["damp"], none⟩]⟩ ⟨[]⟩).1 _ hrun).1 (by decide)).2.1
    rw [Except.map, ← hnorm]
  · have hbig := (validator_first_error_short_circuits
      ⟨List.replicate 21 ⟨some "Hall", some [], some []⟩⟩ ⟨[]⟩).2.1 (by decide)
    rw [hbig]
    simp only [Except.map, failOutput]
    congr 1
  · exact (validator_first_error_short_circuits
      ⟨[⟨some "Hall", some [], some []⟩]⟩
      ⟨[⟨some none, none, none, none, none, none⟩]⟩).2.2 [] [] [] rfl rfl rfl
      ⟨⟨some none, none, none, none, none, none⟩, by decide, rfl⟩

/-! ## Entity-lock verifier (`ControlledDDRGenerator._validate_entity_count`) -/

/-- The literal portion of the heading pattern `Area\s+\d+:`. -/
def areaHeaderKw : List Char := "area".data

/-- Attempt to match `Area\s+\d+:` at the start of `l` (case-insensitive,
greedy `\s+` and `\d+`, which agrees with the regex engine since the
classes are disjoint and a literal `:` follows). -/
def matchAreaHeaderAt (l : List Char) : Bool :=
  match matchKeywordCI areaHeaderKw l with
  | none => false
  | some rest =>
    let sp := rest.takeWhile pySpace
    if sp.isEmpty then false
    else
      let rest2 := rest.dropWhile pySpace
      let ds := rest2.takeWhile Char.isDigit
      if ds.isEmpty then false
      else
        match rest2.dropWhile Char.isDigit with
        | ':' :: _ => true
        | _ => false

/-- `len(re.findall(r'Area\s+\d+:', ddr_text, re.IGNORECASE))`.  As with
the marker pattern, no match of this pattern can begin strictly inside
another one, so a position-by-position scan counts exactly the
non-overlapping matches `findall` produces. -/
def countAreaHeadersAux : List Char → Nat
  | [] => 0
  | c :: cs => (if matchAreaHeaderAt (c :: cs) then 1 else 0) + countAreaHeadersAux cs

def count_area_headers (text : String) : Nat := countAreaHeadersAux text.data

/-- The `ValueError` raised on an entity-lock violation names both the
expected and the actual count. -/
structure EntityLockViolation where
  expected : Nat
  actual : Nat
deriving DecidableEq, Repr

/-- `_validate_entity_count`: count `Area <n>:` headers in the generated
text and raise when the count differs from the locked expectation. -/
def validate_entity_count (ddr_text : String) (expected_count : Nat) :
    Except EntityLockViolation Unit :=
  let actual_count := count_area_headers ddr_text
  if actual_count ≠ expected_count then
    .error { expected := expected_count, actual := actual_count }
  else .ok ()

/-- The tail of `generate_ddr`: run post-generation validation on the
generated text and return the text unchanged when it passes. -/
def generate_return (ddr_text : String) (area_count : Nat) :
    Except EntityLockViolation String :=
  match validate_entity_count ddr_text area_count with
  | .error e => .error e
  | .ok _ => .ok ddr_text

/-- **C1** — post-generation verification passes exactly when the number of
occurrences of the `Area <integer>:` heading pattern equals the expected
count `K` from the contract; on a mismatch it fails with an
`EntityLockViolation` naming both `K` and the actual count, and the
generated text is returned unchanged only on success. -/
theorem entity_lock_verification (ddr_text : String) (K : Nat) :
    (count_area_headers ddr_text = K →
      generate_return ddr_text K = .ok ddr_text) ∧
    (count_area_headers ddr_text ≠ K →
      generate_return ddr_text K
        = .error { expected := K, actual := count_area_headers ddr_text }) := by
  constructor
  · intro h
    simp [generate_return, validate_entity_count, h]
  · intro h
    simp [generate_return, validate_entity_count, h]

/-- Witness for C1: a report with exactly two `Area <n>:` headings passes
against `K = 2` and is returned unchanged; against `K = 3` it fails with
an `EntityLockViolation` naming expected 3 and actual 2. -/
theorem entity_lock_verification_witness :
    (count_area_headers "## Area 1: Hall\n## Area 2: Kitchen" = 2 ∧
      generate_return "## Area 1: Hall\n## Area 2: Kitchen" 2
        = .ok "## Area 1: Hall\n## Area 2: Kitchen") ∧
    (count_area_headers "## Area 1: Hall\n## Area 2: Kitchen" ≠ 3 ∧
      generate_return "## Area 1: Hall\n## Area 2: Kitchen" 3
        = .error { expected := 3, actual := 2 }) := by
  refine ⟨⟨by decide, (entity_lock_verification _ 2).1 (by decide)⟩,
    ⟨by decide, ?_⟩⟩
  have h := (entity_lock_verification "## Area 1: Hall\n## Area 2: Kitchen" 3).2 (by decide)
  rw [h]
  have hc : count_area_headers "## Area 1: Hall\n## Area 2: Kitchen" = 2 := by decide
  rw [hc]

/-! ## Thermal dedup in `ControlledDDRGenerator.generate_ddr` -/

/-- `ThermalFinding` from `schemas.py`. -/
structure ThermalFinding where
  image_id : String
  temperature_reading : String
  thermal_interpretation : String
deriving DecidableEq, Repr

/-- The `unique_thermal` dict loop: the first reading with each `image_id`
wins, and `dict.values()` preserves first-occurrence order. -/
def dedup_thermal_aux (seen : List String) : List ThermalFinding → List ThermalFinding
  | [] => []
  | r :: rest =>
    if r.image_id ∈ seen then dedup_thermal_aux seen rest
    else r :: dedup_thermal_aux (r.image_id :: seen) rest

def dedup_thermal (l : List ThermalFinding) : List ThermalFinding :=
  dedup_thermal_aux [] l

theorem dedup_thermal_aux_first (l : List ThermalFinding) :
    ∀ seen r, r ∈ dedup_thermal_aux seen l →
      l.find? (fun x => x.image_id == r.image_id) = some r ∧ r.image_id ∉ seen := by
  induction l with
  | nil => intro seen r h; simp [dedup_thermal_aux] at h
  | cons x rest ih =>
    intro seen r h
    by_cases hx : x.image_id ∈ seen
    · rw [show dedup_thermal_aux seen (x :: rest) = dedup_thermal_aux seen rest by
        simp [dedup_thermal_aux, hx]] at h
      obtain ⟨hfind, hns⟩ := ih seen r h
      have hstep : List.find? (fun y : ThermalFinding => y.image_id == r.image_id) (x :: rest)
          = List.find? (fun y : ThermalFinding => y.image_id == r.image_id) rest := by
        apply List.find?_cons_of_neg
        simp only [beq_iff_eq]
        intro heq
        exact hns (heq ▸ hx)
      exact ⟨by rw [hstep]; exact hfind, hns⟩
    · rw [show dedup_thermal_aux seen (x :: rest)
          = x :: dedup_thermal_aux (x.image_id :: seen) rest by
        simp [dedup_thermal_aux, hx]] at h
      rcases List.mem_cons.mp h with rfl | hrest
      · refine ⟨?_, hx⟩
        apply List.find?_cons_of_pos
        simp
      · obtain ⟨hfind, hns⟩ := ih _ r hrest
        have hner : r.image_id ≠ x.image_id := by
          intro heq
          exact hns (by rw [heq]; exact List.mem_cons_self _ _)
        refine ⟨?_, fun hs => hns (List.mem_cons_of_mem _ hs)⟩
        have hstep : List.find? (fun y : ThermalFinding => y.image_id == r.image_id) (x :: rest)
            = List.find? (fun y : ThermalFinding => y.image_id == r.image_id) rest := by
          apply List.find?_cons_of_neg
          simpa using fun h => hner h.symm
        rw [hstep]
        exact hfind

theorem dedup_thermal_aux_ids_nodup (l : List ThermalFinding) :
    ∀ seen, ((dedup_thermal_aux seen l).map (fun r => r.image_id)).Nodup := by
  induction l with
  | nil => intro seen; simp [dedup_thermal_aux]
  | cons x rest ih =>
    intro seen
    by_cases hx : x.image_id ∈ seen
    · rw [show dedup_thermal_aux seen (x :: rest) = dedup_thermal_aux seen rest by
        simp [dedup_thermal_aux, hx]]
      exact ih seen
    · rw [show dedup_thermal_aux seen (x :: rest)
          = x :: dedup_thermal_aux (x.image_id :: seen) rest by
        simp [dedup_thermal_aux, hx]]
      simp only [List.map_cons, List.nodup_cons]
      refine ⟨?_, ih _⟩
      intro hmem
      obtain ⟨r, hr, hrid⟩ := List.mem_map.mp hmem
      have := (dedup_thermal_aux_first rest _ r hr).2
      exact this (by rw [hrid]; exact List.mem_cons_self _ _)

theorem dedup_thermal_aux_ids_toFinset (l : List ThermalFinding) :
    ∀ seen, ((dedup_thermal_aux seen l).map (fun r => r.image_id)).toFinset
      = (l.map (fun r => r.image_id)).toFinset \ seen.toFinset := by
  induction l with
  | nil => intro seen; simp [dedup_thermal_aux]
  | cons x rest ih =>
    intro seen
    by_cases hx : x.image_id ∈ seen
    · rw [show dedup_thermal_aux seen (x :: rest) = dedup_thermal_aux seen rest by
        simp [dedup_thermal_aux, hx]]
      rw [ih seen]
      ext t
      simp only [List.map_cons, List.toFinset_cons, Finset.mem_sdiff,
        Finset.mem_insert, List.mem_toFinset]
      constructor
      · rintro ⟨ht, hns⟩
        exact ⟨Or.inr ht, hns⟩
      · rintro ⟨rfl | ht, hns⟩
        · exact absurd hx hns
        · exact ⟨ht, hns⟩
    · rw [show dedup_thermal_aux seen (x :: rest)
          = x :: dedup_thermal_aux (x.image_id :: seen) rest by
        simp [dedup_thermal_aux, hx]]
      rw [List.map_cons, List.toFinset_cons, ih (x.image_id :: seen)]
      ext t
      simp only [List.map_cons, List.toFinset_cons, Finset.mem_insert,
        Finset.mem_sdiff, List.mem_toFinset, List.mem_cons]
      constructor
      · rintro (rfl | ⟨ht, hns⟩)
        · exact ⟨Or.inl rfl, hx⟩
        · exact ⟨Or.inr ht, fun hs => hns (Or.inr hs)⟩
      · rintro ⟨rfl | ht, hns⟩
        · exact Or.inl rfl
        · by_cases hteq : t = x.image_id
          · exact Or.inl hteq
          · exact Or.inr ⟨ht, fun hs => hns (hs.resolve_left hteq)⟩

/-- **C9** — readings sharing an `image_id` collapse to one with the first
occurrence winning (each surviving reading is the first one in the input
carrying its identifier, and the surviving identifiers are pairwise
distinct); the post-deduplication count always equals the number of
distinct image identifiers in the input; and the internal consistency
assertion of `generate_ddr` — post-dedup count = distinct identifiers of
the deduplicated list — never fails. -/
theorem generator_thermal_dedup (l : List ThermalFinding) :
    ((dedup_thermal l).map (fun r => r.image_id)).Nodup ∧
    (∀ r ∈ dedup_thermal l, l.find? (fun x => x.image_id == r.image_id) = some r) ∧
    (dedup_thermal l).length = ((l.map (fun r => r.image_id)).toFinset).card ∧
    (dedup_thermal l).length
      = (((dedup_thermal l).map (fun r => r.image_id)).toFinset).card := by
  have hnd : ((dedup_thermal l).map (fun r => r.image_id)).Nodup :=
    dedup_thermal_aux_ids_nodup l []
  have hset : ((dedup_thermal l).map (fun r => r.image_id)).toFinset
      = (l.map (fun r => r.image_id)).toFinset := by
    rw [dedup_thermal, dedup_thermal_aux_ids_toFinset l []]
    simp
  have hlen : (dedup_thermal l).length
      = (((dedup_thermal l).map (fun r => r.image_id)).toFinset).card := by
    rw [List.toFinset_card_of_nodup hnd]
    simp
  refine ⟨hnd, ?_, ?_, hlen⟩
  · intro r hr
    exact (dedup_thermal_aux_first l [] r hr).1
  · rw [hlen, hset]

/-- Witness for C9 at a concrete input: two readings with the same id
collapse to the first, and the count equals the distinct-id count 2. -/
theorem generator_thermal_dedup_witness :
    dedup_thermal [⟨"A.JPG", "Hot: 28", "hotspot"⟩, ⟨"A.JPG", "Hot: 30", "dup"⟩,
        ⟨"B.JPG", "Hot: 25", "cold"⟩]
      = [⟨"A.JPG", "Hot: 28", "hotspot"⟩, ⟨"B.JPG", "Hot: 25", "cold"⟩] ∧
    (dedup_thermal [⟨"A.JPG", "Hot: 28", "hotspot"⟩, ⟨"A.JPG", "Hot: 30", "dup"⟩,
        ⟨"B.JPG", "Hot: 25", "cold"⟩]).length
      = (([⟨"A.JPG", "Hot: 28", "hotspot"⟩, ⟨"A.JPG", "Hot: 30", "dup"⟩,
          ⟨"B.JPG", "Hot: 25", "cold"⟩] : List ThermalFinding).map
            (fun r => r.image_id)).toFinset.card := by
  constructor
  · decide
  · exact (generator_thermal_dedup _).2.2.1

/-! ## Room-name merge in `parse_inspection_deterministically` -/

/-- Python `str.strip()` on ASCII text. -/
def pyStrip (s : String) : String :=
  String.mk (((s.data.dropWhile pySpace).reverse.dropWhile pySpace).reverse)

/-- `normalize_area`: empty/falsy names map to `""`, otherwise strip and
lowercase. -/
def normalize_area (name : String) : String :=
  if name == "" then "" else pyLower (pyStrip name)

/-- One parsed area section as it enters the dedup loop: the numbered
fallback label (`area["area_name"]`, e.g. `"Impacted Area 1"`), the
extracted room name (`descriptions["area_name"]`, possibly absent), and the
extracted observation lists. -/
structure SectionDescr where
  fallback_label : String
  room_name : Option String
  negative_observations : List String
  positive_observations : List String
deriving DecidableEq, Repr

/-- `area_name = room_name if room_name else area["area_name"]` (Python
truthiness: an empty room name also falls back). -/
def chosenName (s : SectionDescr) : String :=
  match s.room_name with
  | some n => if n == "" then s.fallback_label else n
  | none => s.fallback_label

/-- The `InspectionArea`-shaped record accumulated in `parsed_areas`. -/
structure Room where
  area_name : String
  negative_observations : List String
  positive_observations : List String
deriving DecidableEq, Repr

def normKeyS (s : SectionDescr) : String := normalize_area (chosenName s)

def normKeyR (r : Room) : String := normalize_area r.area_name

/-- `existing["negative_observations"].extend(...)` /
`existing["positive_observations"].extend(...)` applied to the (unique)
room with the matching normalized key, identity elsewhere. -/
def extendRoom (s : SectionDescr) (r : Room) : Room :=
  if normKeyR r == normKeyS s then
    { r with
      negative_observations := r.negative_observations ++ s.negative_observations
      positive_observations := r.positive_observations ++ s.positive_observations }
  else r

/-- One iteration of the dedup loop: if the normalized key is already
present, extend that entry's observation lists in place (the dict value
aliases the list entry); otherwise append a fresh room. -/
def insertSection (rooms : List Room) (s : SectionDescr) : List Room :=
  if rooms.any (fun r => normKeyR r == normKeyS s) then
    rooms.map (extendRoom s)
  else
    rooms ++ [{ area_name := chosenName s
                negative_observations := s.negative_observations
                positive_observations := s.positive_observations }]

/-- The dedup loop of `parse_inspection_deterministically` over the parsed
sections. -/
def mergeRooms (sections : List SectionDescr) : List Room :=
  sections.foldl insertSection []

theorem normKeyR_extendRoom (s : SectionDescr) (r : Room) :
    normKeyR (extendRoom s r) = normKeyR r := by
  unfold extendRoom
  split <;> rfl

/-- The full invariant of the dedup loop, by induction over sections added
at the end. -/
theorem mergeRooms_invariant (sections : List SectionDescr) :
    ((mergeRooms sections).map normKeyR).Nodup ∧
    (∀ k, k ∈ (mergeRooms sections).map normKeyR ↔ k ∈ sections.map normKeyS) ∧
    (∀ r ∈ mergeRooms sections,
      (∃ s₀, sections.find? (fun t => normKeyS t == normKeyR r) = some s₀ ∧
        r.area_name = chosenName s₀) ∧
      r.negative_observations
        = (sections.filter (fun t => normKeyS t == normKeyR r)).flatMap
            (fun t => t.negative_observations) ∧
      r.positive_observations
        = (sections.filter (fun t => normKeyS t == normKeyR r)).flatMap
            (fun t => t.positive_observations)) := by
  induction sections using List.reverseRecOn with
  | nil => simp [mergeRooms]
  | append_singleton l s ih =>
    obtain ⟨ihA, ihB, ihC⟩ := ih
    have hfold : mergeRooms (l ++ [s]) = insertSection (mergeRooms l) s := by
      simp [mergeRooms, List.foldl_append]
    by_cases hmem : (mergeRooms l).any (fun r => normKeyR r == normKeyS s) = true
    · -- duplicate key: the matching entry is extended, no room is added
      have hkeyin : normKeyS s ∈ (mergeRooms l).map normKeyR := by
        obtain ⟨r, hr, hre⟩ := List.any_eq_true.mp hmem
        exact List.mem_map.mpr ⟨r, hr, by simpa using hre⟩
      have hins : mergeRooms (l ++ [s]) = (mergeRooms l).map (extendRoom s) := by
        rw [hfold]
        simp [insertSection, hmem]
      have hkeys : ((mergeRooms l).map (extendRoom s)).map normKeyR
          = (mergeRooms l).map normKeyR := by
        rw [List.map_map]
        exact List.map_congr_left (fun r _ => normKeyR_extendRoom s r)
      refine ⟨?_, ?_, ?_⟩
      · rw [hins, hkeys]
        exact ihA
      · intro k
        rw [hins, hkeys, ihB]
        simp only [List.map_append, List.map_cons, List.map_nil, List.mem_append,
          List.mem_singleton]
        constructor
        · exact fun h => Or.inl h
        · rintro (h | rfl)
          · exact h
          · exact (ihB _).mp hkeyin
      · intro r' hr'
        rw [hins] at hr'
        obtain ⟨r, hr, hre⟩ := List.mem_map.mp hr'
        obtain ⟨⟨s₀, hfind, hname⟩, hneg, hpos⟩ := ihC r hr
        have hkey' : normKeyR r' = normKeyR r := by
          rw [← hre, normKeyR_extendRoom]
        by_cases hk : (normKeyR r == normKeyS s) = true
        · have hkeq : normKeyS s = normKeyR r := (beq_iff_eq.mp hk).symm
          have hext : r' = { r with
              negative_observations := r.negative_observations ++ s.negative_observations
              positive_observations := r.positive_observations ++ s.positive_observations } := by
            rw [← hre, extendRoom, if_pos hk]
          have hfilter : (l ++ [s]).filter (fun t => normKeyS t == normKeyR r')
              = l.filter (fun t => normKeyS t == normKeyR r) ++ [s] := by
            rw [List.filter_append, hkey']
            congr 1
            simp [hkeq]
          refine ⟨⟨s₀, ?_, ?_⟩, ?_, ?_⟩
          · rw [hkey']
            exact find?_append_left hfind
          · rw [hext]
            exact hname
          · rw [hfilter, List.flatMap_append, ← hneg, hext]
            simp
          · rw [hfilter, List.flatMap_append, ← hpos, hext]
            simp
        · have hext : r' = r := by
            rw [← hre, extendRoom, if_neg hk]
          have hfilter : (l ++ [s]).filter (fun t => normKeyS t == normKeyR r')
              = l.filter (fun t => normKeyS t == normKeyR r) := by
            rw [List.filter_append, hkey']
            have : ¬ (normKeyS s == normKeyR r) = true := by
              simp only [beq_iff_eq]
              intro h
              exact hk (by simp [h.symm])
            simp [this]
          subst hext
          refine ⟨⟨s₀, ?_, hname⟩, ?_, ?_⟩
          · rw [hkey']
            exact find?_append_left hfind
          · rw [hfilter, hkey']
            exact hneg
          · rw [hfilter, hkey']
            exact hpos
    · -- new key: a fresh room is appended
      have hnotin : normKeyS s ∉ (mergeRooms l).map normKeyR := by
        intro hmem'
        obtain ⟨r, hr, hre⟩ := List.mem_map.mp hmem'
        exact hmem (List.any_eq_true.mpr ⟨r, hr, by simp [hre]⟩)
      have hins : mergeRooms (l ++ [s]) = mergeRooms l ++
          [{ area_name := chosenName s
             negative_observations := s.negative_observations
             positive_observations := s.positive_observations }] := by
        rw [hfold]
        simp [insertSection, hmem]
      have hnewkey : normKeyR ⟨chosenName s, s.negative_observations,
          s.positive_observations⟩ = normKeyS s := rfl
      have hnotinl : normKeyS s ∉ l.map normKeyS := fun h => hnotin ((ihB _).mpr h)
      refine ⟨?_, ?_, ?_⟩
      · rw [hins, List.map_append]
        rw [List.nodup_append]
        exact ⟨ihA, by simp [hnewkey], by simpa [hnewkey] using fun h => hnotin h⟩
      · intro k
        rw [hins]
        simp only [List.map_append, List.mem_append, List.mem_singleton,
          List.map_cons, List.map_nil]
        rw [ihB k]
        simp [hnewkey]
      · intro r' hr'
        rw [hins] at hr'
        rcases List.mem_append.mp hr' with hold | hnew
        · obtain ⟨⟨s₀, hfind, hname⟩, hneg, hpos⟩ := ihC r' hold
          have hkne : normKeyR r' ≠ normKeyS s := by
            intro h
            exact hnotin (h ▸ List.mem_map_of_mem normKeyR hold)
          have hfilter : (l ++ [s]).filter (fun t => normKeyS t == normKeyR r')
              = l.filter (fun t => normKeyS t == normKeyR r') := by
            rw [List.filter_append]
            have : ¬ (normKeyS s == normKeyR r') = true := by
              simp only [beq_iff_eq]
              intro h
              exact hkne h.symm
            simp [this]
          exact ⟨⟨s₀, find?_append_left hfind, hname⟩,
            by rw [hfilter]; exact hneg, by rw [hfilter]; exact hpos⟩
        · rw [List.mem_singleton.mp hnew]
          have hfindl : l.find? (fun t => normKeyS t == normKeyS s) = none := by
            rw [List.find?_eq_none]
            intro t ht
            simp only [beq_iff_eq]
            intro h
            exact hnotinl (h ▸ List.mem_map_of_mem normKeyS ht)
          have hfilterl : l.filter (fun t => normKeyS t == normKeyS s) = [] := by
            rw [List.filter_eq_nil_iff]
            intro t ht
            simp only [beq_iff_eq]
            intro h
            exact hnotinl (h ▸ List.mem_map_of_mem normKeyS ht)
          refine ⟨⟨s, ?_, rfl⟩, ?_, ?_⟩
          · rw [hnewkey, List.find?_append, hfindl]
            simp
          · rw [hnewkey, List.filter_append, hfilterl]
            simp
          · rw [hnewkey, List.filter_append, hfilterl]
            simp

/-- **C2** — any two parsed area sections whose chosen names are equal after
case/whitespace normalization are merged into a single room entry: the
produced rooms have pairwise-distinct normalized labels, each room's
observation lists are the concatenation, in encounter order, of the lists
of all sections sharing its normalized label, the first such section
establishes the entry (and its displayed name), and the final room count
equals the number of distinct normalized labels, not the number of input
sections. -/
theorem merge_areas_by_normalized_name (sections : List SectionDescr) :
    (mergeRooms sections).length = ((sections.map normKeyS).toFinset).card ∧
    ((mergeRooms sections).map normKeyR).Nodup ∧
    (∀ k, k ∈ (mergeRooms sections).map normKeyR ↔ k ∈ sections.map normKeyS) ∧
    ∀ r ∈ mergeRooms sections,
      (∃ s₀, sections.find? (fun t => normKeyS t == normKeyR r) = some s₀ ∧
        r.area_name = chosenName s₀) ∧
      r.negative_observations
        = (sections.filter (fun t => normKeyS t == normKeyR r)).flatMap
            (fun t => t.negative_observations) ∧
      r.positive_observations
        = (sections.filter (fun t => normKeyS t == normKeyR r)).flatMap
            (fun t => t.positive_observations) := by
  obtain ⟨hA, hB, hC⟩ := mergeRooms_invariant sections
  refine ⟨?_, hA, hB, hC⟩
  have hset : ((mergeRooms sections).map normKeyR).toFinset
      = (sections.map normKeyS).toFinset := by
    ext k
    simp only [List.mem_toFinset]
    exact hB k
  calc (mergeRooms sections).length
      = ((mergeRooms sections).map normKeyR).length := by simp
    _ = ((mergeRooms sections).map normKeyR).toFinset.card :=
        (List.toFinset_card_of_nodup hA).symm
    _ = ((sections.map normKeyS).toFinset).card := by rw [hset]

/-- Witness for C2: two sections named `"Hall"` and `"  HALL "` merge into
one room (first name wins, lists concatenated in encounter order), so three
sections yield two rooms. -/
theorem merge_areas_by_normalized_name_witness :
    (mergeRooms [⟨"Impacted Area 1", some "Hall", ["n1"], ["p1"]⟩,
        ⟨"Impacted Area 2", some "Kitchen", ["n2"], []⟩,
        ⟨"Impacted Area 3", some "  HALL ", ["n3"], ["p3"]⟩]).length
      = (([⟨"Impacted Area 1", some "Hall", ["n1"], ["p1"]⟩,
          ⟨"Impacted Area 2", some "Kitchen", ["n2"], []⟩,
          ⟨"Impacted Area 3", some "  HALL ", ["n3"], ["p3"]⟩] :
            List SectionDescr).map normKeyS).toFinset.card ∧
    mergeRooms [⟨"Impacted Area 1", some "Hall", ["n1"], ["p1"]⟩,
        ⟨"Impacted Area 2", some "Kitchen", ["n2"], []⟩,
        ⟨"Impacted Area 3", some "  HALL ", ["n3"], ["p3"]⟩]
      = [⟨"Hall", ["n1", "n3"], ["p1", "p3"]⟩, ⟨"Kitchen", ["n2"], []⟩] := by
  constructor
  · exact (merge_areas_by_normalized_name _).1
  · decide

/-! ## Frame properties of null-field normalization (C10) -/

theorem get_map_eq {α β : Type} (f : α → β) (l : List α) (i : Nat)
    (h1 : i < l.length) (h2 : i < (l.map f).length) :
    (l.map f).get ⟨i, h2⟩ = f (l.get ⟨i, h1⟩) := by
  simp [List.get_eq_getElem, List.getElem_map]

theorem cleanThermalField_truthy {f : Option (Option String)}
    (h : truthyField f = true) : cleanThermalField f = f := by
  simp [cleanThermalField, h]

theorem cleanThermalField_falsy {f : Option (Option String)}
    (h : truthyField f = false) : cleanThermalField f = some (some "Not Available") := by
  simp [cleanThermalField, h]

/-- **C10** — null-field normalization is a pure frame-preserving rewrite:
it never adds or removes areas or thermal readings, so whenever the
`validate_all` call returns an output its reported `area_count` and
`thermal_count` equal the input collections' lengths (on the
uncaught-`AttributeError` path of `validate_all_run` no counts are reported
at all); it leaves every truthy field — and every list-shaped observation
field — unchanged, it never touches a reading's `area` key, and it rewrites
only falsy fields to `"Not Available"` and non-list observation fields to
`[]`. -/
theorem clean_null_fields_frame (insp : InspData) (therm : ThermData) :
    (clean_null_fields_insp insp).areas.length = insp.areas.length ∧
    (clean_null_fields_therm therm).thermal_readings.length
      = therm.thermal_readings.length ∧
    (∀ out, validate_all_run insp therm = .ok out →
      out.validation.area_count = insp.areas.length ∧
      out.validation.thermal_count = therm.thermal_readings.length) ∧
    (∀ i (h1 : i < insp.areas.length) (h2 : i < (clean_null_fields_insp insp).areas.length),
      (truthyStr (insp.areas.get ⟨i, h1⟩).area_name = true →
        ((clean_null_fields_insp insp).areas.get ⟨i, h2⟩).area_name
          = (insp.areas.get ⟨i, h1⟩).area_name) ∧
      (truthyStr (insp.areas.get ⟨i, h1⟩).area_name = false →
        ((clean_null_fields_insp insp).areas.get ⟨i, h2⟩).area_name
          = some "Not Available") ∧
      (∀ obs, (insp.areas.get ⟨i, h1⟩).negative_observations = some obs →
        ((clean_null_fields_insp insp).areas.get ⟨i, h2⟩).negative_observations
          = some obs) ∧
      ((insp.areas.get ⟨i, h1⟩).negative_observations = none →
        ((clean_null_fields_insp insp).areas.get ⟨i, h2⟩).negative_observations
          = some []) ∧
      (∀ obs, (insp.areas.get ⟨i, h1⟩).positive_observations = some obs →
        ((clean_null_fields_insp insp).areas.get ⟨i, h2⟩).positive_observations
          = some obs) ∧
      ((insp.areas.get ⟨i, h1⟩).positive_observations = none →
        ((clean_null_fields_insp insp).areas.get ⟨i, h2⟩).positive_observations
          = some [])) ∧
    (∀ i (h1 : i < therm.thermal_readings.length)
        (h2 : i < (clean_null_fields_therm therm).thermal_readings.length),
      ((clean_null_fields_therm therm).thermal_readings.get ⟨i, h2⟩).area
        = (therm.thermal_readings.get ⟨i, h1⟩).area ∧
      ((clean_null_fields_therm therm).thermal_readings.get ⟨i, h2⟩).image_id
        = cleanThermalField (therm.thermal_readings.get ⟨i, h1⟩).image_id ∧
      ((clean_null_fields_therm therm).thermal_readings.get ⟨i, h2⟩).hotspot
        = cleanThermalField (therm.thermal_readings.get ⟨i, h1⟩).hotspot ∧
      ((clean_null_fields_therm therm).thermal_readings.get ⟨i, h2⟩).coldspot
        = cleanThermalField (therm.thermal_readings.get ⟨i, h1⟩).coldspot ∧
      ((clean_null_fields_therm therm).thermal_readings.get ⟨i, h2⟩).temperature_difference
        = cleanThermalField (therm.thermal_readings.get ⟨i, h1⟩).temperature_difference ∧
      ((clean_null_fields_therm therm).thermal_readings.get ⟨i, h2⟩).interpretation
        = cleanThermalField (therm.thermal_readings.get ⟨i, h1⟩).interpretation) ∧
    (∀ f, truthyField f = true → cleanThermalField f = f) ∧
    (∀ f, truthyField f = false → cleanThermalField f = some (some "Not Available")) := by
  have hleni : (clean_null_fields_insp insp).areas.length = insp.areas.length := by
    simp [clean_null_fields_insp]
  have hlent : (clean_null_fields_therm therm).thermal_readings.length
      = therm.thermal_readings.length := by
    simp [clean_null_fields_therm]
  have hcounts : ∀ out, validate_all_run insp therm = .ok out →
      out.validation.area_count = insp.areas.length ∧
      out.validation.thermal_count = therm.thermal_readings.length := by
    intro out hout
    cases h1 : validate_area_count insp [] with
    | error p =>
      obtain ⟨ws, e⟩ := p
      simp only [validate_all_run, h1] at hout
      injection hout with h'
      subst h'
      simp [failOutput]
    | ok w1 =>
      cases h2 : validate_no_thermal_ids_in_areas insp w1 with
      | error p =>
        obtain ⟨ws, e⟩ := p
        simp only [validate_all_run, h1, h2] at hout
        injection hout with h'
        subst h'
        simp [failOutput]
      | ok w2 =>
        cases h3 : validate_thermal_structure therm w2 with
        | error p =>
          obtain ⟨ws, e⟩ := p
          simp only [validate_all_run, h1, h2, h3] at hout
          injection hout with h'
          subst h'
          simp [failOutput]
        | ok w3 =>
          cases h4 : validate_no_areas_in_thermal_run insp therm w3 with
          | error e =>
            simp only [validate_all_run, h1, h2, h3, h4] at hout
            exact absurd hout (by simp)
          | ok w4 =>
            simp only [validate_all_run, h1, h2, h3, h4] at hout
            injection hout with h'
            subst h'
            exact ⟨hleni, hlent⟩
  refine ⟨hleni, hlent, hcounts, ?_, ?_, ?_, ?_⟩
  · intro i h1 h2
    have hget : (clean_null_fields_insp insp).areas.get ⟨i, h2⟩
        = cleanArea (insp.areas.get ⟨i, h1⟩) := by
      exact get_map_eq cleanArea insp.areas i h1 (by simpa [clean_null_fields_insp] using h2)
    rw [hget]
    refine ⟨?_, ?_, ?_, ?_, ?_, ?_⟩
    · intro h
      simp only [List.get_eq_getElem] at h
      simp [cleanArea, h]
    · intro h
      simp only [List.get_eq_getElem] at h
      simp [cleanArea, h]
    · intro obs h
      simp only [List.get_eq_getElem] at h
      simp [cleanArea, h]
    · intro h
      simp only [List.get_eq_getElem] at h
      simp [cleanArea, h]
    · intro obs h
      simp only [List.get_eq_getElem] at h
      simp [cleanArea, h]
    · intro h
      simp only [List.get_eq_getElem] at h
      simp [cleanArea, h]
  · intro i h1 h2
    have hget : (clean_null_fields_therm therm).thermal_readings.get ⟨i, h2⟩
        = cleanThermal (therm.thermal_readings.get ⟨i, h1⟩) := by
      exact get_map_eq cleanThermal therm.thermal_readings i h1
        (by simpa [clean_null_fields_therm] using h2)
    rw [hget]
    exact ⟨rfl, rfl, rfl, rfl, rfl, rfl⟩
  · exact fun f h => cleanThermalField_truthy h
  · exact fun f h => cleanThermalField_falsy h

/-- Witness for C10 at a concrete input: one area with a truthy name and a
missing negative list, one reading with a falsy hotspot; counts are
preserved, the truthy name survives, the missing list becomes `[]`, the
`area` key is untouched and the falsy hotspot becomes the sentinel. -/
theorem clean_null_fields_frame_witness :
    (validate_all_run ⟨[⟨some "Hall", none, some ["p"]⟩]⟩
        ⟨[⟨some (some "RB1.JPG"), some (some "x"), none, none, none, none⟩]⟩).map
      (fun o => o.validation.area_count) = .ok 1 ∧
    ((clean_null_fields_insp ⟨[⟨some "Hall", none, some ["p"]⟩]⟩).areas.get
        ⟨0, by decide⟩).area_name = some "Hall" ∧
    ((clean_null_fields_insp ⟨[⟨some "Hall", none, some ["p"]⟩]⟩).areas.get
        ⟨0, by decide⟩).negative_observations = some [] ∧
    ((clean_null_fields_therm
        ⟨[⟨some (some "RB1.JPG"), some (some "x"), none, none, none, none⟩]⟩).thermal_readings.get
          ⟨0, by decide⟩).area = some (some "x") ∧
    ((clean_null_fields_therm
        ⟨[⟨some (some "RB1.JPG"), some (some "x"), none, none, none, none⟩]⟩).thermal_readings.get
          ⟨0, by decide⟩).hotspot = some (some "Not Available") := by
  have h := clean_null_fields_frame ⟨[⟨some "Hall", none, some ["p"]⟩]⟩
    ⟨[⟨some (some "RB1.JPG"), some (some "x"), none, none, none, none⟩]⟩
  refine ⟨?_, ?_, ?_, ?_, ?_⟩
  · have hrun : validate_all_run ⟨[⟨some "Hall", none, some ["p"]⟩]⟩
        ⟨[⟨some (some "RB1.JPG"), some (some "x"), none, none, none, none⟩]⟩
        = .ok { validation := { valid := true, errors := [], warnings := []
                                area_count := 1, thermal_count := 1 }
                inspection := ⟨[⟨some "Hall", some [], some ["p"]⟩]⟩
                thermal := ⟨[⟨some (some "RB1.JPG"), some (some "x"),
                  some (some "Not Available"), some (some "Not Available"),
                  some (some "Not Available"), some (some "Not Available")⟩]⟩ } :=
      except_eq_ok_of_toOption (by decide)
    have hcount : ({ validation := { valid := true, errors := [], warnings := []
                                     area_count := 1, thermal_count := 1 }
                     inspection := ⟨[⟨some "Hall", some [], some ["p"]⟩]⟩
                     thermal := ⟨[⟨some (some "RB1.JPG"), some (some "x"),
                       some (some "Not Available"), some (some "Not Available"),
                       some (some "Not Available"),
                       some (some "Not Available")⟩]⟩ } : VOutput).validation.area_count
        = 1 := (h.2.2.1 _ hrun).1
    rw [hrun, Except.map, hcount]
  · exact (h.2.2.2.1 0 (by decide) (by decide)).1 (by decide)
  · exact (h.2.2.2.1 0 (by decide) (by decide)).2.2.2.1 (by decide)
  · exact (h.2.2.2.2.1 0 (by decide) (by decide)).1
  · have hh := (h.2.2.2.2.1 0 (by decide) (by decide)).2.2.1
    rw [hh]
    exact h.2.2.2.2.2.2 _ (by decide)

end DDR
